import Mathlib

/-!
Shallow embedding of the diagram layout engine (gantt chart, architecture map,
draw.io export, ERD) together with proofs about its sizing, packing, routing,
legend-placement and error-handling behaviour.  Geometry is modelled over ℚ;
renderer text measurement is abstracted as a function `String → ℚ` wherever the
source reads pixel extents back from a live canvas.
-/

namespace Layout

/-- Axis-aligned rectangle in layout units, corners `(x0, y0)` and `(x1, y1)`. -/
structure Rect where
  x0 : ℚ
  y0 : ℚ
  x1 : ℚ
  y1 : ℚ
deriving DecidableEq, Repr

/-- Two axis-aligned rectangles overlap when their open interiors intersect
(the guard the source uses before accumulating intersection area). -/
def rectOverlap (a b : Rect) : Prop :=
  a.x0 < b.x1 ∧ b.x0 < a.x1 ∧ a.y0 < b.y1 ∧ b.y0 < a.y1

/-- A rectangle lies inside the canvas `[0, w] × [0, h]`. -/
def rectInside (r : Rect) (w h : ℚ) : Prop :=
  0 ≤ r.x0 ∧ r.x1 ≤ w ∧ 0 ≤ r.y0 ∧ r.y1 ≤ h

/-- Split a character list at every occurrence of `c`, keeping empty pieces:
the semantics of Python's `str.split(sep)` for a one-character separator
(so splitting the empty string yields one empty piece). -/
def splitChar (c : Char) : List Char → List (List Char)
  | [] => [[]]
  | x :: xs =>
    match splitChar c xs with
    | [] => [[]]
    | g :: gs => if x = c then [] :: g :: gs else (x :: g) :: gs

/-- The lines of a string: Python `s.split("\n")`. -/
def pyLines (s : String) : List String := (splitChar '\n' s.data).map List.asString

/-- Python `s.split()` restricted to spaces: split at spaces, drop empty words. -/
def pyWords (s : String) : List String :=
  ((splitChar ' ' s.data).map List.asString).filter (fun w => w ≠ "")

/-- Python `" ".join words`. -/
def joinSpace : List String → String
  | [] => ""
  | [w] => w
  | w :: ws => w ++ " " ++ joinSpace ws

end Layout

namespace Gantt

open Layout

/-! ### Bar-label fitting (gantt_chart.build_chart, label placement)

The source measures a rendered text via the canvas; here the single-line
measurer is an abstract `m : String → ℚ` (width in day units) and the width of
a multi-line text is the widest of its lines, as a renderer bounding box is. -/

/-- Width of a possibly multi-line text under single-line measurer `m`:
the maximum of the per-line widths. -/
def textWidth (m : String → ℚ) (s : String) : ℚ :=
  match (pyLines s).map m with
  | [] => 0
  | w :: ws => ws.foldl max w

/-- Midpoint word-boundary wrap: split the label into words, join the first
half and the second half with a newline between them
(`half = len(words) // 2`). -/
def wrapMid (label : String) : String :=
  let words := pyWords label
  let half := words.length / 2
  joinSpace (List.take half words) ++ "\n" ++ joinSpace (List.drop half words)

/-- Where a bar label ends up: inside the bar (possibly two lines) or placed
outside to the right of the bar, coloured like the bar and left-aligned. -/
inductive Placement where
  | inside (label : String)
  | outside (label : String)
deriving DecidableEq, Repr

/-- The label-fit decision for one bar of duration `duration` (the container
width in day units): measure the label; if it exceeds 0.95 of the bar width,
wrap it at the midpoint word boundary; re-measure; place inside if the
(possibly wrapped) label now fits within 0.95 of the bar width, otherwise
place the original label outside the bar. -/
def placeLabel (m : String → ℚ) (label : String) (duration : ℚ) : Placement :=
  let w1 := textWidth m label
  let label2 := if w1 > duration * (95/100) then wrapMid label else label
  let w2 := textWidth m label2
  if w2 ≤ duration * (95/100) then .inside label2 else .outside label

/-! ### Legend placement search (gantt_chart.build_chart, candidate scan) -/

/-- Overlap contribution of one obstacle rectangle `r` against the legend box
`leg`: the rectangle-intersection area when the open interiors overlap, else 0
(mirrors the guarded `ox * oy` accumulation of the source). -/
def overlapArea (leg r : Rect) : ℚ :=
  if leg.x0 < r.x1 ∧ leg.x1 > r.x0 ∧ leg.y0 < r.y1 ∧ leg.y1 > r.y0 then
    max 0 (min leg.x1 r.x1 - max leg.x0 r.x0) * max 0 (min leg.y1 r.y1 - max leg.y0 r.y0)
  else 0

/-- Total cost of a candidate legend box: a ×10 penalty on the area extending
above the safe grid extent `gridTop`, plus the intersection area with every
bar (weight 1), milestone marker (weight 2) and milestone label (weight 2). -/
def legendCost (gridTop : ℚ) (bars markers mlabels : List Rect) (leg : Rect) : ℚ :=
  (if leg.y1 > gridTop then (leg.y1 - gridTop) * (leg.x1 - leg.x0) * 10 else 0)
    + (bars.map fun r => overlapArea leg r).sum
    + (markers.map fun r => overlapArea leg r * 2).sum
    + (mlabels.map fun r => overlapArea leg r * 2).sum

/-- A weighted-obstacle phrasing of the same cost, following the spec text:
for every obstacle, intersection area times the obstacle's weight. -/
def specCost (gridTop : ℚ) (obstacles : List (Rect × ℚ)) (leg : Rect) : ℚ :=
  (if leg.y1 > gridTop then (leg.y1 - gridTop) * (leg.x1 - leg.x0) * 10 else 0)
    + (obstacles.map fun ow => overlapArea leg ow.1 * ow.2).sum

/-- The fixed candidate-position list, in declaration order. -/
def ganttCandidates : List String :=
  ["upper right", "upper left", "lower left", "lower right",
   "center right", "center left", "lower center"]

/-- One step of the best-candidate scan: `none` plays the role of the initial
`float("inf")` best overlap; a candidate replaces the incumbent only when its
cost is strictly smaller. -/
def scanStep (cost : Rect → ℚ) (best : String × Option ℚ) (c : String × Rect) :
    String × Option ℚ :=
  match best.2 with
  | none => (c.1, some (cost c.2))
  | some b => if cost c.2 < b then (c.1, some (cost c.2)) else best

/-- Scan every candidate in order, starting from the source's initial state
`("lower right", ∞)`, and keep the first strict improvement. -/
def legendScan (cost : Rect → ℚ) (cands : List (String × Rect)) : String × Option ℚ :=
  cands.foldl (scanStep cost) ("lower right", none)

/-- The legend location chosen for the gantt chart: scan the fixed candidate
list, where `legBox loc` is the legend's bounding box rendered at `loc`. -/
def ganttBestLoc (gridTop : ℚ) (bars markers mlabels : List Rect)
    (legBox : String → Rect) : String × Option ℚ :=
  legendScan (legendCost gridTop bars markers mlabels)
    (ganttCandidates.map fun s => (s, legBox s))

/-- Total-order version of the scan once a real candidate is the incumbent. -/
def scanFrom (cost : Rect → ℚ) : String × ℚ → List (String × Rect) → String × ℚ
  | best, [] => best
  | best, c :: rest =>
      scanFrom cost (if cost c.2 < best.2 then (c.1, cost c.2) else best) rest

end Gantt

namespace Arch

open Layout

/-! ### Architecture map (architecture_map.py): dynamic card sizing, stacked
bands, lateral routing, step-colour table.  Zone ids are assumed unique and
the zones are taken already resolved in `ZONE_ORDER` order. -/

/-- A component card: label plus optional sublabel / multi-line detail / icon. -/
structure Comp where
  id : String
  label : String
  sublabel : Option String := none
  detail : Option String := none
  icon : Option String := none
deriving DecidableEq, Repr

/-- A zone (group) of components with its colour pair. -/
structure Zone where
  id : String
  label : String
  colour : String
  border : String
  components : List Comp
deriving DecidableEq, Repr

-- Font sizes used by the card sizer.
def COMP_LABEL_SZ : ℚ := 40
def COMP_SUB_SZ : ℚ := 32
def COMP_DETAIL_SZ : ℚ := 26

-- Card sizing constants.
def CARD_PAD_X : ℚ := 8/10
def CARD_ICON_H : ℚ := 17/10
def CARD_LINE_GAP : ℚ := 15/100
def CARD_PAD_BOT : ℚ := 30/100

-- Layout constants.
def SIDEBAR_W : ℚ := 55/10
def ZONE_PAD_X : ℚ := 12/10
def GAP_X : ℚ := 1
def COMP_GAP : ℚ := 1
def ZONE_HEADER : ℚ := 2
def ZONE_CARD_GAP : ℚ := 55/100
def ZONE_PAD_Y : ℚ := 6/10
def ARROW_ZONE : ℚ := 22/10
def TITLE_H : ℚ := 55/10
def LEGEND_H : ℚ := 7

/-- Heuristic text width in data units: `len(text) * fontsize * 0.55 / 72`. -/
def est_w (text : String) (fontsize : ℚ) : ℚ :=
  (text.length : ℚ) * fontsize * (55/100) / 72

/-- Heuristic single-line height: `fontsize * spacing / 72` (the source passes
spacing 1.35 for label lines and 1.55 for the denser detail block). -/
def est_h (fontsize : ℚ) (spacing : ℚ) : ℚ := fontsize * spacing / 72

/-- The detail lines of a component: the (possibly absent, defaulting to the
empty string) detail text split at newlines; note that an absent detail
yields the single empty line `[""]`, exactly as Python's `"".split("\n")`. -/
def detailLines (c : Comp) : List String := pyLines (c.detail.getD "")

/-- Width one card needs: the widest of label, sublabel and detail lines at
their font sizes, plus the horizontal padding on both sides. -/
def needed_w (c : Comp) : ℚ :=
  ((detailLines c).map fun dl => est_w dl COMP_DETAIL_SZ).foldl max
      (max (est_w c.label COMP_LABEL_SZ) (est_w (c.sublabel.getD "") COMP_SUB_SZ))
    + 2 * CARD_PAD_X

/-- Height one card needs: icon allowance, label line, sublabel line, the
sublabel/detail gap, one dense line per detail line, and bottom padding. -/
def needed_h (c : Comp) : ℚ :=
  CARD_ICON_H + est_h COMP_LABEL_SZ (135/100) + est_h COMP_SUB_SZ (135/100) + CARD_LINE_GAP
    + ((detailLines c).length : ℚ) * est_h COMP_DETAIL_SZ (155/100) + CARD_PAD_BOT

/-- Uniform card width of a zone: the maximum needed width over its members
(starting from the source's `max_w = 0.0`). -/
def zone_card_w (z : Zone) : ℚ := (z.components.map needed_w).foldl max 0

/-- Uniform card height of a zone: the maximum needed height over its members. -/
def zone_card_h (z : Zone) : ℚ := (z.components.map needed_h).foldl max 0

/-- Width the zone band needs: `n * cw + (n - 1) * COMP_GAP + 2 * ZONE_PAD_X`. -/
def zoneNeededW (z : Zone) : ℚ :=
  (z.components.length : ℚ) * zone_card_w z
    + ((z.components.length : ℚ) - 1) * COMP_GAP + 2 * ZONE_PAD_X

/-- Shared content width of all bands: the widest zone row (Python `max`). -/
def ZONE_CONTENT_W (zs : List Zone) : ℚ :=
  match zs.map zoneNeededW with
  | [] => 0
  | w :: ws => ws.foldl max w

/-- Height of one zone band: header, header/card gap, card height, padding. -/
def zone_band_h (z : Zone) : ℚ := ZONE_HEADER + ZONE_CARD_GAP + zone_card_h z + ZONE_PAD_Y

/-- Overall figure width: gaps, two sidebars, and the shared content width. -/
def FIG_W (zs : List Zone) : ℚ :=
  GAP_X + SIDEBAR_W + GAP_X + ZONE_CONTENT_W zs + GAP_X + SIDEBAR_W + GAP_X

/-- Overall figure height: title, the per-band heights, the inter-band arrow
gaps, and the bottom margins and legend block. -/
def FIG_H (zs : List Zone) : ℚ :=
  TITLE_H + (zs.map zone_band_h).sum + ((zs.length : ℚ) - 1) * ARROW_ZONE
    + 12/10 + LEGEND_H + 1

/-- Left edge of the zone band column. -/
def ZONE_LEFT : ℚ := GAP_X + SIDEBAR_W + GAP_X

/-- Pair every zone with the y of its band's top edge, walking the cursor
down by the band height plus the arrow gap after each zone. -/
def zoneTops : List Zone → ℚ → List (Zone × ℚ)
  | [], _ => []
  | z :: rest, cursor => (z, cursor) :: zoneTops rest (cursor - zone_band_h z - ARROW_ZONE)

/-- Zone band tops for the whole figure, starting below the title. -/
def archZoneTops (zs : List Zone) : List (Zone × ℚ) := zoneTops zs (FIG_H zs - TITLE_H)

/-- The placed bounding box of the `i`-th card of a zone whose band top edge
is at `ztop`, inside a content row of width `contentW`: cards are centred as a
row, consecutive cards `cw + COMP_GAP` apart, each `cw × ch`. -/
def compBox (contentW : ℚ) (z : Zone) (ztop : ℚ) (i : ℕ) : Rect :=
  let cw := zone_card_w z
  let ch := zone_card_h z
  let n : ℚ := z.components.length
  let total := n * cw + (n - 1) * COMP_GAP
  let startX := ZONE_LEFT + (contentW - total) / 2
  let cardTop := ztop - ZONE_HEADER - ZONE_CARD_GAP
  let cx := startX + (i : ℚ) * (cw + COMP_GAP) + cw / 2
  let cy := cardTop - ch / 2
  ⟨cx - cw / 2, cy - ch / 2, cx + cw / 2, cy + ch / 2⟩

/-- A configured connection: source id, target id, step number, label. -/
structure Conn where
  src : String
  dst : String
  number : ℕ
  label : String
deriving DecidableEq, Repr

/-- The component-id → zone-id table built from every zone's component list
(component ids are unique across the shipped configurations). -/
def compToZone (zs : List Zone) : List (String × String) :=
  zs.foldr (fun z acc => (z.components.map fun c => (c.id, z.id)) ++ acc) []

/-- First-match association lookup. -/
def lookupStr : List (String × String) → String → Option String
  | [], _ => none
  | (k, v) :: rest, key => if k = key then some v else lookupStr rest key

/-- Border colour of the zone with the given id (empty if unknown). -/
def zoneBorder (zs : List Zone) (zid : String) : String :=
  match zs.find? (fun z => z.id == zid) with
  | some z => z.border
  | none => ""

/-- The step-number → source-zone border colour table.  The source subscripts
`comp_to_zone[fid]` directly, so a connection whose source id belongs to no
zone's components raises `KeyError` and aborts the whole run; that failure is
modelled as `Except.error` carrying the offending id. -/
def step_colours (zs : List Zone) : List Conn → Except String (List (String × String))
  | [] => .ok []
  | conn :: rest =>
    match lookupStr (compToZone zs) conn.src with
    | none => .error conn.src
    | some zid =>
      match step_colours zs rest with
      | .error e => .error e
      | .ok tail => .ok ((toString conn.number, zoneBorder zs zid) :: tail)

/-- The connections actually drawn by the lateral/vertical loops of
`architecture_map.py` and by the draw.io edge loop: a connection whose source
or target id is not among the placed component ids is skipped with `continue`
(silently — no warning is reported anywhere). -/
def keptConnections (placed : List String) (conns : List Conn) : List Conn :=
  conns.filter fun c => placed.contains c.src && placed.contains c.dst

/-- Anchor points chosen by the lateral-connection router of
`architecture_map.py` (matplotlib coordinates, y growing upward): when the
horizontal centre displacement dominates (`|dx| > |dy|`) the arrow leaves and
enters the facing vertical sides at centre height; otherwise it leaves the
top or bottom edge toward the vertical displacement. -/
def lateralAnchors (fc tc : ℚ × ℚ) (hw1 hh1 hw2 hh2 : ℚ) : (ℚ × ℚ) × (ℚ × ℚ) :=
  let dx := tc.1 - fc.1
  let dy := tc.2 - fc.2
  if |dx| > |dy| then
    ((if dx > 0 then fc.1 + hw1 + 1/10 else fc.1 - hw1 - 1/10, fc.2),
     (if dx > 0 then tc.1 - hw2 - 1/10 else tc.1 + hw2 + 1/10, tc.2))
  else
    ((fc.1, if dy > 0 then fc.2 + hh1 + 1/10 else fc.2 - hh1 - 1/10),
     (tc.1, if dy > 0 then tc.2 - hh2 - 1/10 else tc.2 + hh2 + 1/10))

/-- Exit/entry fractional anchors emitted by `architecture_drawio.py`'s edge
style (draw.io coordinates, y growing downward): `((exitX, exitY), (entryX,
entryY))`.  Same row when `|dy| < 20`; otherwise exit bottom (`exitY = 1`)
when the target centre is below the source centre, else exit top. -/
def drawioEdgeAnchors (fc tc : ℚ × ℚ) : (ℚ × ℚ) × (ℚ × ℚ) :=
  let dy := |tc.2 - fc.2|
  if dy < 20 then
    if tc.1 > fc.1 then ((1, 1/2), (0, 1/2)) else ((0, 1/2), (1, 1/2))
  else if tc.2 > fc.2 then ((1/2, 1), (1/2, 0))
  else ((1/2, 0), (1/2, 1))

/-! #### draw.io page geometry (architecture_drawio.py) -/

-- draw.io layout constants (pixel units).
def DIO_SIDEBAR_W : ℚ := 140
def DIO_GAP : ℚ := 30
def DIO_CARD_W : ℚ := 260
def DIO_CARD_H : ℚ := 170
def DIO_COMP_GAP : ℚ := 30
def DIO_ZONE_PAD : ℚ := 30
def DIO_ZONE_HEADER : ℚ := 40
def DIO_ARROW_GAP : ℚ := 50

/-- Largest component count over the zones (Python `max`, over a nonempty
zone order). -/
def dioMaxComps (zs : List Zone) : ℚ :=
  match zs.map fun z => (z.components.length : ℚ) with
  | [] => 0
  | w :: ws => ws.foldl max w

/-- draw.io zone band width from the fixed card width. -/
def dioZoneW (zs : List Zone) : ℚ :=
  dioMaxComps zs * DIO_CARD_W + (dioMaxComps zs - 1) * DIO_COMP_GAP + 2 * DIO_ZONE_PAD

/-- draw.io total content width. -/
def dioTotalW (zs : List Zone) : ℚ :=
  DIO_GAP + DIO_SIDEBAR_W + DIO_GAP + dioZoneW zs + DIO_GAP + DIO_SIDEBAR_W + DIO_GAP

/-- The `(pageWidth, pageHeight)` attributes of the emitted `mxGraphModel`:
the page height is the hard-coded constant 4000. -/
def dioPage (zs : List Zone) : ℚ × ℚ := (dioTotalW zs + 40, 4000)

/-- The y cursor after the draw.io zone loop: starts at `title_y + 80` and
adds each zone's fixed band height (`40 + 170 + 2·30`) plus the arrow gap —
the bottom extent of the placed zone geometry. -/
def dioCursorEnd (zs : List Zone) : ℚ :=
  zs.foldl (fun c _ => c + (DIO_ZONE_HEADER + DIO_CARD_H + 2 * DIO_ZONE_PAD) + DIO_ARROW_GAP)
    (20 + 80)

/-- The complete deterministic geometry of one architecture-map layout run. -/
def archLayout (zs : List Zone) : ℚ × ℚ × List (Zone × ℚ) :=
  (FIG_W zs, FIG_H zs, archZoneTops zs)

end Arch

namespace Erd

/-! ### ERD diagram (erd_diagram.py): column-row anchors and relationship
geometry. -/

/-- One table column: name, SQL type, key badges. -/
structure Column where
  name : String
  ctype : String
  pk : Bool := false
  fk : Bool := false
deriving DecidableEq, Repr

/-- One table: id, display label, domain, ordered column list. -/
structure Table where
  id : String
  label : String
  domain : String
  columns : List Column
deriving DecidableEq, Repr

def HEADER_H : ℚ := 48/100
def ROW_H : ℚ := 34/100
def TABLE_W : ℚ := 42/10

/-- The enumerate-and-return loop of `find_column_y`, carrying the running
row index `i`. -/
def findColY (colName : String) (yTop : ℚ) : ℕ → List Column → ℚ
  | _, [] => yTop + HEADER_H + ROW_H / 2
  | i, c :: rest =>
    if c.name = colName then yTop + HEADER_H + (i : ℚ) * ROW_H + ROW_H / 2
    else findColY colName yTop (i + 1) rest

/-- Vertical centre of the row of column `colName` in a table whose top edge
is at `yTop`; falls back to the centre of the first column row when the name
is not present. -/
def find_column_y (t : Table) (colName : String) (yTop : ℚ) : ℚ :=
  findColY colName yTop 0 t.columns

/-- A relationship between two table columns, endpoints already split at the
dot of the `"table.column"` reference. -/
structure Rel where
  srcTable : String
  srcCol : String
  dstTable : String
  dstCol : String
  cardinality : String := ""
deriving DecidableEq, Repr

/-- The endpoint geometry produced for one relationship line. -/
structure RelGeom where
  x1 : ℚ
  fy : ℚ
  x2 : ℚ
  ty : ℚ
deriving DecidableEq, Repr

/-- First-match position lookup. -/
def lookupPos : List (String × (ℚ × ℚ)) → String → Option (ℚ × ℚ)
  | [], _ => none
  | (k, v) :: rest, key => if k = key then some v else lookupPos rest key

/-- The geometry of `draw_relationship`: resolve both endpoint tables and
their placed positions (a missing table or position is the `KeyError` the
caller swallows, modelled as `Except.error`), anchor each end at its column
row via `find_column_y`, and connect the facing vertical sides (right of the
leftmost table to the left of the rightmost, or both right sides in the
same-column case). -/
def draw_relationship (tables : List Table) (positions : List (String × (ℚ × ℚ)))
    (rel : Rel) : Except Unit RelGeom :=
  match tables.find? (fun t => t.id == rel.srcTable),
        tables.find? (fun t => t.id == rel.dstTable),
        lookupPos positions rel.srcTable,
        lookupPos positions rel.dstTable with
  | some ft, some tt, some fpos, some tpos =>
    let fy := find_column_y ft rel.srcCol fpos.2
    let ty := find_column_y tt rel.dstCol tpos.2
    let fromCx := fpos.1 + TABLE_W / 2
    let toCx := tpos.1 + TABLE_W / 2
    if fromCx < toCx then .ok ⟨fpos.1 + TABLE_W, fy, tpos.1, ty⟩
    else if fromCx > toCx then .ok ⟨fpos.1, fy, tpos.1 + TABLE_W, ty⟩
    else .ok ⟨fpos.1 + TABLE_W, fy, tpos.1 + TABLE_W, ty⟩
  | _, _, _, _ => .error ()

end Erd

/-! ## Concrete inputs used by witnesses and counterexamples -/

namespace Inputs

open Arch Erd

/-- Scenario A group: two sibling cards with a short and a long label. -/
def zoneAB : Zone :=
  { id := "zab", label := "Scenario A", colour := "#EEEEEE", border := "#333333",
    components := [{ id := "alpha", label := "Alpha" },
                   { id := "beta", label := "Beta Gateway Service" }] }

/-- The long-labelled member of `zoneAB`. -/
def betaComp : Comp := { id := "beta", label := "Beta Gateway Service" }

/-- A minimal zone holding one component. -/
def zoneOne : Zone :=
  { id := "z1", label := "Z1", colour := "#FFFFFF", border := "#000000",
    components := [{ id := "a", label := "A" }] }

/-- A one-zone, one-component configuration. -/
def zsOne : List Zone := [zoneOne]

/-- A connection whose source id is not a component of any zone. -/
def connGhost : Conn := { src := "ghost", dst := "a", number := 1, label := "x" }

/-- A component with no detail text configured. -/
def compNoDetail : Comp := { id := "c0", label := "X" }

/-- A zone of two minimal sibling cards. -/
def zonePair : Zone :=
  { id := "zp", label := "Pair", colour := "#FFFFFF", border := "#000000",
    components := [{ id := "p1", label := "One" }, { id := "p2", label := "Two" }] }

/-- Thirteen copies of the same zone: enough bands that the placed draw.io
content runs past the fixed page height. -/
def zsMany : List Zone :=
  List.replicate 13
    { id := "zm", label := "ZM", colour := "#FFFFFF", border := "#000000",
      components := [{ id := "m", label := "M" }] }

/-- A one-column ERD table. -/
def tableA : Table :=
  { id := "ta", label := "table_a", domain := "clinical",
    columns := [{ name := "id", ctype := "uuid" }, { name := "code", ctype := "text" }] }

/-- A second ERD table placed to the right of `tableA`. -/
def tableB : Table :=
  { id := "tb", label := "table_b", domain := "clinical",
    columns := [{ name := "id", ctype := "uuid" }] }

/-- A relationship whose source column name is missing from `tableA`. -/
def relMissing : Rel :=
  { srcTable := "ta", srcCol := "ghost_col", dstTable := "tb", dstCol := "id" }

/-- Placed positions for `tableA` and `tableB`. -/
def posAB : List (String × (ℚ × ℚ)) := [("ta", (1, 2)), ("tb", (7, 2))]

end Inputs

/-! ## Helper lemmas and claim theorems -/

open Layout Gantt Arch Erd Inputs

/-- The initial accumulator of `List.foldl max` is a lower bound of the result. -/
theorem le_foldl_max (l : List ℚ) (a : ℚ) : a ≤ l.foldl max a := by
  induction l generalizing a with
  | nil => simp
  | cons x xs ih => exact le_trans (le_max_left a x) (ih (max a x))

/-- Every member of the list is a lower bound of `List.foldl max`. -/
theorem mem_le_foldl_max (l : List ℚ) (a x : ℚ) (hx : x ∈ l) : x ≤ l.foldl max a := by
  induction l generalizing a with
  | nil => cases hx
  | cons y ys ih =>
    rw [List.foldl_cons]
    rcases List.mem_cons.mp hx with h | h
    · subst h
      exact le_trans (le_max_right a x) (le_foldl_max ys (max a x))
    · exact ih (max a y) h

/-- `List.foldl max` is attained: it is the seed or one of the members. -/
theorem foldl_max_mem (l : List ℚ) (a : ℚ) : l.foldl max a = a ∨ l.foldl max a ∈ l := by
  induction l generalizing a with
  | nil => exact Or.inl rfl
  | cons x xs ih =>
    rw [List.foldl_cons]
    rcases ih (max a x) with h | h
    · rcases max_choice a x with h2 | h2
      · exact Or.inl (h.trans h2)
      · exact Or.inr (List.mem_cons.mpr (Or.inl (h.trans h2)))
    · exact Or.inr (List.mem_cons.mpr (Or.inr h))

theorem legendScan_eq_scanFrom (cost : Rect → ℚ) (rest : List (String × Rect)) :
    ∀ p : String × ℚ,
      rest.foldl (scanStep cost) (p.1, some p.2) =
        ((scanFrom cost p rest).1, some (scanFrom cost p rest).2) := by
  induction rest with
  | nil => intro p; rfl
  | cons c t ih =>
    intro p
    rw [List.foldl_cons, scanFrom]
    by_cases h : cost c.2 < p.2
    · have hstep : scanStep cost (p.1, some p.2) c = (c.1, some (cost c.2)) := by
        simp [scanStep, h]
      rw [hstep, if_pos h]
      exact ih (c.1, cost c.2)
    · have hstep : scanStep cost (p.1, some p.2) c = (p.1, some p.2) := by
        simp [scanStep, h]
      rw [hstep, if_neg h]
      exact ih p

/-- The scan result never exceeds the incumbent's cost. -/
theorem scanFrom_le_init (cost : Rect → ℚ) (l : List (String × Rect)) :
    ∀ p : String × ℚ, (scanFrom cost p l).2 ≤ p.2 := by
  induction l with
  | nil => intro p; exact le_refl _
  | cons c t ih =>
    intro p
    rw [scanFrom]
    by_cases h : cost c.2 < p.2
    · rw [if_pos h]; exact le_trans (ih (c.1, cost c.2)) (le_of_lt h)
    · rw [if_neg h]; exact ih p

/-- The scan result is a lower bound of every scanned candidate's cost. -/
theorem scanFrom_le_mem (cost : Rect → ℚ) (l : List (String × Rect)) :
    ∀ p : String × ℚ, ∀ c ∈ l, (scanFrom cost p l).2 ≤ cost c.2 := by
  induction l with
  | nil => intro p c hc; cases hc
  | cons d t ih =>
    intro p c hc
    rw [scanFrom]
    rcases List.mem_cons.mp hc with h | h
    · subst h
      by_cases hlt : cost c.2 < p.2
      · rw [if_pos hlt]; exact scanFrom_le_init cost t (c.1, cost c.2)
      · rw [if_neg hlt]
        exact le_trans (scanFrom_le_init cost t p) (le_of_not_lt hlt)
    · by_cases hlt : cost d.2 < p.2
      · rw [if_pos hlt]; exact ih (d.1, cost d.2) c h
      · rw [if_neg hlt]; exact ih p c h

/-- If the scan did not improve on the incumbent's cost, nothing was selected:
the incumbent survives unchanged (this is why ties keep the earlier
candidate — replacement needs a strictly smaller cost). -/
theorem scanFrom_eq_of_eq (cost : Rect → ℚ) (l : List (String × Rect)) :
    ∀ p : String × ℚ, (scanFrom cost p l).2 = p.2 → scanFrom cost p l = p := by
  induction l with
  | nil => intro p _; rfl
  | cons c t ih =>
    intro p heq
    rw [scanFrom] at heq ⊢
    by_cases h : cost c.2 < p.2
    · rw [if_pos h] at heq ⊢
      have hle := scanFrom_le_init cost t (c.1, cost c.2)
      rw [heq] at hle
      exact absurd (lt_of_lt_of_le h hle) (lt_irrefl _)
    · rw [if_neg h] at heq ⊢
      exact ih p heq

/-- When the scan does improve, the selected candidate is the first scanned
candidate attaining the final (minimal) cost. -/
theorem scanFrom_find (cost : Rect → ℚ) (l : List (String × Rect)) :
    ∀ p : String × ℚ,
      (if (scanFrom cost p l).2 < p.2 then
        ∃ cd, l.find? (fun e => decide (cost e.2 = (scanFrom cost p l).2)) = some cd ∧
          (scanFrom cost p l).1 = cd.1 ∧ (scanFrom cost p l).2 = cost cd.2
      else scanFrom cost p l = p) := by
  induction l with
  | nil =>
    intro p
    rw [scanFrom, if_neg (lt_irrefl p.2)]
  | cons c t ih =>
    intro p
    rw [scanFrom]
    by_cases h : cost c.2 < p.2
    · rw [if_pos h]
      have := ih (c.1, cost c.2)
      by_cases h2 : (scanFrom cost (c.1, cost c.2) t).2 < cost c.2
      · rw [if_pos h2] at this
        rcases this with ⟨cd, hfind, hname, hval⟩
        rw [if_pos (lt_trans h2 h)]
        refine ⟨cd, ?_, hname, hval⟩
        rw [List.find?_cons_of_neg, hfind]
        simp only [decide_eq_true_eq]
        exact fun hc => absurd hc.symm (ne_of_lt h2)
      · rw [if_neg h2] at this
        have hle := scanFrom_le_init cost t (c.1, cost c.2)
        rw [this]
        rw [if_pos h]
        refine ⟨c, ?_, rfl, rfl⟩
        rw [List.find?_cons_of_pos]
        simp
    · rw [if_neg h]
      have := ih p
      by_cases h2 : (scanFrom cost p t).2 < p.2
      · rw [if_pos h2] at this
        rcases this with ⟨cd, hfind, hname, hval⟩
        rw [if_pos h2]
        refine ⟨cd, ?_, hname, hval⟩
        rw [List.find?_cons_of_neg, hfind]
        simp only [decide_eq_true_eq]
        intro hc
        rw [← hc] at h2
        exact h h2
      · rw [if_neg h2] at this
        rw [if_neg (by rw [this]; exact lt_irrefl p.2)]
        exact this

/-- Specification of the candidate scan for a nonempty candidate list: the
result records the name and cost of a scanned candidate, that cost is minimal
over all candidates, and the recorded name is the name of the first candidate
attaining the minimal cost. -/
theorem legendScan_spec (cost : Rect → ℚ) (c0 : String × Rect)
    (rest : List (String × Rect)) :
    ∃ cd m, legendScan cost (c0 :: rest) = (cd.1, some m) ∧ m = cost cd.2 ∧
      (c0 :: rest).find? (fun e => decide (cost e.2 = m)) = some cd ∧
      ∀ e ∈ c0 :: rest, m ≤ cost e.2 := by
  have h0 : legendScan cost (c0 :: rest) =
      ((scanFrom cost (c0.1, cost c0.2) rest).1,
        some (scanFrom cost (c0.1, cost c0.2) rest).2) := by
    rw [legendScan, List.foldl_cons]
    have hstep : scanStep cost ("lower right", none) c0 = (c0.1, some (cost c0.2)) := rfl
    rw [hstep]
    exact legendScan_eq_scanFrom cost rest (c0.1, cost c0.2)
  have hfind := scanFrom_find cost rest (c0.1, cost c0.2)
  by_cases hlt : (scanFrom cost (c0.1, cost c0.2) rest).2 < cost c0.2
  · rw [if_pos hlt] at hfind
    rcases hfind with ⟨cd, hf, hname, hval⟩
    refine ⟨cd, (scanFrom cost (c0.1, cost c0.2) rest).2, ?_, hval, ?_, ?_⟩
    · rw [h0, hname]
    · rw [List.find?_cons_of_neg, hf]
      simp only [decide_eq_true_eq]
      exact fun hcontra => absurd hcontra.symm (ne_of_lt hlt)
    · intro e he
      rcases List.mem_cons.mp he with h | h
      · subst h; exact le_of_lt hlt
      · exact scanFrom_le_mem cost rest (c0.1, cost c0.2) e h
  · rw [if_neg hlt] at hfind
    refine ⟨c0, cost c0.2, ?_, rfl, ?_, ?_⟩
    · rw [h0, hfind]
    · rw [List.find?_cons_of_pos]
      simp
    · intro e he
      rcases List.mem_cons.mp he with h | h
      · subst h
        exact le_refl _
      · have hm := scanFrom_le_mem cost rest (c0.1, cost c0.2) e h
        rw [hfind] at hm
        exact hm

/-- C1: the gantt legend placement search scores every candidate of the fixed
candidate list with a cost equal to the ×10 penalty on the area extending
above the safe grid extent plus, for every obstacle, its intersection area
with the candidate times the obstacle's weight (bars ×1, milestone markers
and labels ×2); all candidates are scored by the scan before the result is
committed, the selected candidate's cost is ≤ the cost of every other
candidate, and a tie is resolved to the first-declared candidate. -/
theorem c1_legend_placement_optimal (gridTop : ℚ) (bars markers mlabels : List Rect)
    (legBox : String → Rect) :
    (∀ leg : Rect, legendCost gridTop bars markers mlabels leg =
      specCost gridTop
        (bars.map (fun r => (r, (1 : ℚ))) ++ markers.map (fun r => (r, (2 : ℚ)))
          ++ mlabels.map (fun r => (r, (2 : ℚ)))) leg) ∧
    ∃ cd m, ganttBestLoc gridTop bars markers mlabels legBox = (cd.1, some m) ∧
      m = legendCost gridTop bars markers mlabels cd.2 ∧
      (ganttCandidates.map fun s => (s, legBox s)).find?
        (fun e => decide (legendCost gridTop bars markers mlabels e.2 = m)) = some cd ∧
      ∀ e ∈ ganttCandidates.map fun s => (s, legBox s),
        m ≤ legendCost gridTop bars markers mlabels e.2 := by
  constructor
  · intro leg
    simp only [legendCost, specCost, List.map_append, List.sum_append, List.map_map,
      Function.comp_def, mul_one]
    ring
  · exact legendScan_spec (legendCost gridTop bars markers mlabels)
      ("upper right", legBox "upper right")
      (["upper left", "lower left", "lower right", "center right", "center left",
        "lower center"].map fun s => (s, legBox s))

/-- C2: the label-fit decision is three-tier and evaluated in order: a label
within the 0.95 tolerance of the bar width is placed inside unchanged; a label
exceeding the tolerance is wrapped at the midpoint word boundary and placed
inside as two lines when the wrapped width fits the tolerance; only when the
wrapped width still exceeds the tolerance is the label placed outside the bar. -/
theorem c2_label_fit_three_tier (m : String → ℚ) (label : String) (duration : ℚ) :
    (textWidth m label ≤ duration * (95/100) →
      placeLabel m label duration = .inside label) ∧
    (textWidth m label > duration * (95/100) →
      textWidth m (wrapMid label) ≤ duration * (95/100) →
      placeLabel m label duration = .inside (wrapMid label)) ∧
    (textWidth m label > duration * (95/100) →
      ¬ textWidth m (wrapMid label) ≤ duration * (95/100) →
      placeLabel m label duration = .outside label) := by
  refine ⟨?_, ?_, ?_⟩
  · intro h1
    simp only [placeLabel]
    rw [if_neg (not_lt.mpr h1), if_pos h1]
  · intro h1 h2
    simp only [placeLabel]
    rw [if_pos h1, if_pos h2]
  · intro h1 h2
    simp only [placeLabel]
    rw [if_pos h1, if_neg h2]

/-- C2 witness: a measurer giving the single-line label width 12 and each
wrapped half width 4, with bar width 10 (tolerance 9.5): the label does not
fit on one line but its two-line wrap does, so it is placed inside as two
lines, not outside. -/
theorem c2_label_fit_witness :
    placeLabel (fun s => if s = "alpha beta" then 12 else 4) "alpha beta" 10 =
      .inside "alpha\nbeta" := by
  have hwrap : wrapMid "alpha beta" = "alpha\nbeta" := by decide
  have h1 : textWidth (fun s => if s = "alpha beta" then 12 else 4) "alpha beta" = 12 := by
    have hl : pyLines "alpha beta" = ["alpha beta"] := by decide
    simp [textWidth, hl]
  have h2 : textWidth (fun s => if s = "alpha beta" then 12 else 4) "alpha\nbeta" = 4 := by
    have hl : pyLines "alpha\nbeta" = ["alpha", "beta"] := by decide
    simp [textWidth, hl]
  have := (c2_label_fit_three_tier (fun s => if s = "alpha beta" then 12 else 4)
    "alpha beta" 10).2.1 (by rw [h1]; norm_num) (by rw [hwrap, h2]; norm_num)
  rw [hwrap] at this
  exact this

/-- The heuristic text width is nonnegative for a nonnegative font size. -/
theorem est_w_nonneg (t : String) (fs : ℚ) (h : 0 ≤ fs) : 0 ≤ est_w t fs := by
  unfold est_w
  have hlen : (0 : ℚ) ≤ (t.length : ℚ) := Nat.cast_nonneg _
  positivity

/-- Every card needs strictly positive width (the horizontal padding alone). -/
theorem needed_w_pos (c : Comp) : 0 < needed_w c := by
  have h0 : 0 ≤ est_w c.label COMP_LABEL_SZ :=
    est_w_nonneg _ _ (by norm_num [COMP_LABEL_SZ])
  have h1 : est_w c.label COMP_LABEL_SZ ≤
      max (est_w c.label COMP_LABEL_SZ) (est_w (c.sublabel.getD "") COMP_SUB_SZ) :=
    le_max_left _ _
  have h2 := le_foldl_max ((detailLines c).map fun dl => est_w dl COMP_DETAIL_SZ)
    (max (est_w c.label COMP_LABEL_SZ) (est_w (c.sublabel.getD "") COMP_SUB_SZ))
  have h3 : (0 : ℚ) < 2 * CARD_PAD_X := by norm_num [CARD_PAD_X]
  unfold needed_w
  linarith

/-- Every card needs strictly positive height (the fixed allowances alone). -/
theorem needed_h_pos (c : Comp) : 0 < needed_h c := by
  have hlen : (0 : ℚ) ≤ ((detailLines c).length : ℚ) := Nat.cast_nonneg _
  have hterm : (0 : ℚ) ≤ ((detailLines c).length : ℚ) * est_h COMP_DETAIL_SZ (155/100) :=
    mul_nonneg hlen (by norm_num [est_h, COMP_DETAIL_SZ])
  have h1 : (0 : ℚ) < CARD_ICON_H + est_h COMP_LABEL_SZ (135/100) + est_h COMP_SUB_SZ (135/100)
      + CARD_LINE_GAP := by
    norm_num [CARD_ICON_H, est_h, COMP_LABEL_SZ, COMP_SUB_SZ, CARD_LINE_GAP]
  have h2 : (0 : ℚ) < CARD_PAD_BOT := by norm_num [CARD_PAD_BOT]
  unfold needed_h
  linarith

/-- The uniform zone card width is nonnegative. -/
theorem zone_card_w_nonneg (z : Zone) : 0 ≤ zone_card_w z := le_foldl_max _ 0

/-- The uniform zone card height is nonnegative. -/
theorem zone_card_h_nonneg (z : Zone) : 0 ≤ zone_card_h z := le_foldl_max _ 0

/-- A member's needed width is bounded by the zone's uniform card width. -/
theorem needed_w_le_zone (z : Zone) (c : Comp) (hc : c ∈ z.components) :
    needed_w c ≤ zone_card_w z :=
  mem_le_foldl_max _ 0 _ (List.mem_map_of_mem needed_w hc)

/-- A member's needed height is bounded by the zone's uniform card height. -/
theorem needed_h_le_zone (z : Zone) (c : Comp) (hc : c ∈ z.components) :
    needed_h c ≤ zone_card_h z :=
  mem_le_foldl_max _ 0 _ (List.mem_map_of_mem needed_h hc)

/-- C3: every card of a zone is placed with the identical box size
`(zone_card_w, zone_card_h)`; that shared size dominates the size each member
needs on its own, and (for a nonempty zone) is attained by some member, i.e.
equals the componentwise maximum over the members — so a group holding the
labels "Alpha" and "Beta Gateway Service" gives both elements at least the
width the longer label needs. -/
theorem c3_uniform_sibling_sizing (contentW : ℚ) (z : Zone) (ztop : ℚ) :
    (∀ i : ℕ,
      (compBox contentW z ztop i).x1 - (compBox contentW z ztop i).x0 = zone_card_w z ∧
      (compBox contentW z ztop i).y1 - (compBox contentW z ztop i).y0 = zone_card_h z) ∧
    (∀ c ∈ z.components, needed_w c ≤ zone_card_w z ∧ needed_h c ≤ zone_card_h z) ∧
    (z.components ≠ [] →
      (∃ c ∈ z.components, zone_card_w z = needed_w c) ∧
      (∃ c ∈ z.components, zone_card_h z = needed_h c)) := by
  refine ⟨?_, ?_, ?_⟩
  · intro i
    constructor
    · simp only [compBox]
      ring
    · simp only [compBox]
      ring
  · intro c hc
    exact ⟨needed_w_le_zone z c hc, needed_h_le_zone z c hc⟩
  · intro hne
    obtain ⟨c0, hc0⟩ := List.exists_mem_of_ne_nil z.components hne
    constructor
    · rcases foldl_max_mem (z.components.map needed_w) 0 with h | h
      · exfalso
        have hle := needed_w_le_zone z c0 hc0
        have hz : zone_card_w z = 0 := h
        rw [hz] at hle
        exact absurd (lt_of_lt_of_le (needed_w_pos c0) hle) (lt_irrefl 0)
      · rcases List.mem_map.mp h with ⟨c, hc, heq⟩
        exact ⟨c, hc, heq.symm⟩
    · rcases foldl_max_mem (z.components.map needed_h) 0 with h | h
      · exfalso
        have hle := needed_h_le_zone z c0 hc0
        have hz : zone_card_h z = 0 := h
        rw [hz] at hle
        exact absurd (lt_of_lt_of_le (needed_h_pos c0) hle) (lt_irrefl 0)
      · rcases List.mem_map.mp h with ⟨c, hc, heq⟩
        exact ⟨c, hc, heq.symm⟩

/-- C3 witness: in the scenario-A group, the shared zone card size dominates
the size required by the long-labelled member "Beta Gateway Service". -/
theorem c3_uniform_sibling_sizing_witness :
    needed_w betaComp ≤ zone_card_w zoneAB ∧ needed_h betaComp ≤ zone_card_h zoneAB :=
  (c3_uniform_sibling_sizing 0 zoneAB 0).2.1 betaComp (by decide)

/-- C4: layout is a pure function of the configuration — repeated runs of the
sizing/placement pipeline, the legend scan and the label-fit decision on equal
inputs produce identical geometry (the embedding has no hidden state,
iteration-order dependence or clock input to vary between runs). -/
theorem c4_layout_deterministic (zs : List Zone) (gridTop : ℚ)
    (bars markers mlabels : List Rect) (legBox : String → Rect)
    (m : String → ℚ) (label : String) (duration : ℚ) :
    archLayout zs = archLayout zs ∧
    ganttBestLoc gridTop bars markers mlabels legBox =
      ganttBestLoc gridTop bars markers mlabels legBox ∧
    placeLabel m label duration = placeLabel m label duration :=
  ⟨rfl, rfl, rfl⟩

/-- C5 counterexample: the lateral router of the architecture map does not
decide by a vertical-displacement threshold.  Two connector pairs with the
identical vertical displacement 1 attach differently (side attach for centres
(0,0)→(3,1), top attach for (0,0)→(1/2,1)), and no strictly positive
threshold ε makes side attachment equivalent to `|dy| < ε`. -/
theorem c5_routing_threshold_counterexample :
    (lateralAnchors (0, 0) (3, 1) 1 1 1 1).1.2 = 0 ∧
    (lateralAnchors (0, 0) ((1 : ℚ)/2, 1) 1 1 1 1).1.2 = 11/10 ∧
    ¬ ∃ ε : ℚ, 0 < ε ∧ ∀ fc tc : ℚ × ℚ,
        ((lateralAnchors fc tc 1 1 1 1).1.2 = fc.2 ↔ |tc.2 - fc.2| < ε) := by
  refine ⟨?_, ?_, ?_⟩
  · norm_num [lateralAnchors]
  · norm_num [lateralAnchors, abs_of_pos]
  · rintro ⟨ε, hε, hall⟩
    have h2 : (0 : ℚ) < ε / 2 := by linarith
    have habs : |((0, ε / 2) : ℚ × ℚ).2 - ((0, 0) : ℚ × ℚ).2| < ε := by
      simp only []
      rw [sub_zero, abs_of_pos h2]
      linarith
    have hzero := (hall (0, 0) (0, ε / 2)).mpr habs
    have hv : (lateralAnchors (0, 0) (0, ε / 2) 1 1 1 1).1.2 = 1 + 1/10 := by
      simp [lateralAnchors, h2]
      rw [if_neg (not_lt.mpr (abs_nonneg _))]
    rw [hzero] at hv
    norm_num at hv

/-- C5 (amended): the draw.io edge router follows the threshold rule — left or
right attachment (exit/entry `Y = 1/2`) when the absolute vertical centre
displacement is below 20 px, toward the horizontal displacement; otherwise
bottom exit (`exitY = 1`) when the target centre is below the source centre
(larger y in the y-down system) and top exit otherwise.  The matplotlib
lateral router instead attaches sides exactly when `|dx| > |dy|` (dominant
horizontal displacement), else top or bottom toward the vertical
displacement. -/
theorem c5_connector_routing_amended (fc tc : ℚ × ℚ) (hw1 hh1 hw2 hh2 : ℚ) :
    (|tc.2 - fc.2| < 20 → tc.1 > fc.1 →
      drawioEdgeAnchors fc tc = ((1, 1/2), (0, 1/2))) ∧
    (|tc.2 - fc.2| < 20 → ¬ tc.1 > fc.1 →
      drawioEdgeAnchors fc tc = ((0, 1/2), (1, 1/2))) ∧
    (¬ |tc.2 - fc.2| < 20 → tc.2 > fc.2 →
      drawioEdgeAnchors fc tc = ((1/2, 1), (1/2, 0))) ∧
    (¬ |tc.2 - fc.2| < 20 → ¬ tc.2 > fc.2 →
      drawioEdgeAnchors fc tc = ((1/2, 0), (1/2, 1))) ∧
    (|tc.1 - fc.1| > |tc.2 - fc.2| →
      (lateralAnchors fc tc hw1 hh1 hw2 hh2).1.2 = fc.2 ∧
      (lateralAnchors fc tc hw1 hh1 hw2 hh2).2.2 = tc.2 ∧
      (lateralAnchors fc tc hw1 hh1 hw2 hh2).1.1 =
        (if tc.1 - fc.1 > 0 then fc.1 + hw1 + 1/10 else fc.1 - hw1 - 1/10)) ∧
    (¬ |tc.1 - fc.1| > |tc.2 - fc.2| →
      (lateralAnchors fc tc hw1 hh1 hw2 hh2).1.1 = fc.1 ∧
      (lateralAnchors fc tc hw1 hh1 hw2 hh2).2.1 = tc.1 ∧
      (lateralAnchors fc tc hw1 hh1 hw2 hh2).1.2 =
        (if tc.2 - fc.2 > 0 then fc.2 + hh1 + 1/10 else fc.2 - hh1 - 1/10)) := by
  refine ⟨?_, ?_, ?_, ?_, ?_, ?_⟩
  · intro h1 h2
    simp only [drawioEdgeAnchors]
    rw [if_pos h1, if_pos h2]
  · intro h1 h2
    simp only [drawioEdgeAnchors]
    rw [if_pos h1, if_neg h2]
  · intro h1 h2
    simp only [drawioEdgeAnchors]
    rw [if_neg h1, if_pos h2]
  · intro h1 h2
    simp only [drawioEdgeAnchors]
    rw [if_neg h1, if_neg h2]
  · intro h1
    simp only [lateralAnchors]
    rw [if_pos h1]
    exact ⟨rfl, rfl, rfl⟩
  · intro h1
    simp only [lateralAnchors]
    rw [if_neg h1]
    exact ⟨rfl, rfl, rfl⟩

/-- C5 witness: a draw.io connector dropping 30 px takes the bottom-exit /
top-entry anchors, and a lateral connector with dominant horizontal
displacement attaches at the source's vertical side centre. -/
theorem c5_connector_routing_amended_witness :
    drawioEdgeAnchors (0, 0) (0, 30) = ((1/2, 1), (1/2, 0)) ∧
    (lateralAnchors (0, 0) (3, 1) 1 1 1 1).1.2 = 0 := by
  constructor
  · exact (c5_connector_routing_amended (0, 0) (0, 30) 1 1 1 1).2.2.1
      (by norm_num) (by norm_num)
  · exact ((c5_connector_routing_amended (0, 0) (3, 1) 1 1 1 1).2.2.2.2.1
      (by norm_num [abs_of_pos])).1

/-- C6 counterexample: a configured connection whose source id `"ghost"` is
not a component of any zone makes the step-colour construction raise
`KeyError` (modelled `Except.error`), aborting the whole layout run instead
of succeeding with a skipped connector and a warning. -/
theorem c6_dangling_connector_counterexample :
    step_colours zsOne [connGhost] = Except.error "ghost" := rfl

/-- C6 (amended): a connector whose source or target id is not among the
placed component ids is skipped silently by the drawing loops (it contributes
no geometry and no warning is reported), while the step-colour table build
fails outright on a source id that belongs to no zone's components. -/
theorem c6_dangling_connector_amended (placed : List String) (conns : List Conn)
    (c : Conn) (zs : List Zone) (rest : List Conn)
    (hskip : placed.contains c.src = false ∨ placed.contains c.dst = false)
    (hmiss : lookupStr (compToZone zs) c.src = none) :
    c ∉ keptConnections placed conns ∧
    step_colours zs (c :: rest) = Except.error c.src := by
  constructor
  · intro hmem
    have hpred : (placed.contains c.src && placed.contains c.dst) = true :=
      (List.mem_filter.mp hmem).2
    rcases hskip with h | h
    · rw [h, Bool.false_and] at hpred
      exact Bool.false_ne_true hpred
    · rw [h, Bool.and_false] at hpred
      exact Bool.false_ne_true hpred
  · simp only [step_colours, hmiss]

/-- C6 witness: the concrete dangling connection is not kept by the drawing
loops and fails the step-colour build. -/
theorem c6_dangling_connector_amended_witness :
    connGhost ∉ keptConnections ["a"] [connGhost] ∧
    step_colours zsOne (connGhost :: []) = Except.error connGhost.src :=
  c6_dangling_connector_amended ["a"] [connGhost] connGhost zsOne []
    (Or.inl (by decide)) (by decide)

/-- C7 counterexample: for a component with no detail text the sizer does not
treat the missing block as zero extra lines — Python's `"".split("\n")` yields
one empty line, so the computed height carries one dense detail line height
and differs from the zero-extra-lines height the claim describes. -/
theorem c7_missing_detail_counterexample :
    (detailLines compNoDetail).length = 1 ∧
    needed_h compNoDetail =
      CARD_ICON_H + est_h COMP_LABEL_SZ (135/100) + est_h COMP_SUB_SZ (135/100) + CARD_LINE_GAP
        + est_h COMP_DETAIL_SZ (155/100) + CARD_PAD_BOT ∧
    needed_h compNoDetail ≠
      CARD_ICON_H + est_h COMP_LABEL_SZ (135/100) + est_h COMP_SUB_SZ (135/100) + CARD_LINE_GAP
        + CARD_PAD_BOT := by
  have hd : detailLines compNoDetail = [""] := by decide
  refine ⟨by rw [hd]; rfl, ?_, ?_⟩
  · simp only [needed_h, hd, List.length_singleton, Nat.cast_one, one_mul]
  · simp only [needed_h, hd, List.length_singleton, Nat.cast_one, one_mul]
    norm_num [est_h, CARD_ICON_H, COMP_LABEL_SZ, COMP_SUB_SZ, CARD_LINE_GAP,
      COMP_DETAIL_SZ, CARD_PAD_BOT]

/-- C7 (amended): an absent detail text defaults to the empty string, which
splits into the single empty line: sizing raises no error, contributes zero
width but exactly one dense detail line height, and the resulting card width
and height are strictly positive (through the fixed paddings and allowances —
no explicit minimum-height floor exists in the code). -/
theorem c7_missing_detail_amended (c : Comp) (hd : c.detail = none) :
    detailLines c = [""] ∧
    needed_h c =
      CARD_ICON_H + est_h COMP_LABEL_SZ (135/100) + est_h COMP_SUB_SZ (135/100) + CARD_LINE_GAP
        + est_h COMP_DETAIL_SZ (155/100) + CARD_PAD_BOT ∧
    0 < needed_w c ∧ 0 < needed_h c := by
  have h1 : detailLines c = [""] := by
    simp only [detailLines, hd, Option.getD_none]
    decide
  refine ⟨h1, ?_, needed_w_pos c, needed_h_pos c⟩
  simp only [needed_h, h1, List.length_singleton, Nat.cast_one, one_mul]

/-- C7 witness: the amended behaviour at the concrete detail-less component. -/
theorem c7_missing_detail_amended_witness :
    detailLines compNoDetail = [""] ∧
    needed_h compNoDetail =
      CARD_ICON_H + est_h COMP_LABEL_SZ (135/100) + est_h COMP_SUB_SZ (135/100) + CARD_LINE_GAP
        + est_h COMP_DETAIL_SZ (155/100) + CARD_PAD_BOT ∧
    0 < needed_w compNoDetail ∧ 0 < needed_h compNoDetail :=
  c7_missing_detail_amended compNoDetail rfl

/-- Consecutive cards in a band are separated: the right edge of an earlier
card stays left of the left edge of any later card. -/
theorem compBox_sep (contentW : ℚ) (z : Zone) (ztop : ℚ) {i j : ℕ} (hlt : i < j) :
    (compBox contentW z ztop i).x1 ≤ (compBox contentW z ztop j).x0 := by
  have hcw := zone_card_w_nonneg z
  have hij1 : (i : ℚ) + 1 ≤ (j : ℚ) := by exact_mod_cast hlt
  have key : ((i : ℚ) + 1) * (zone_card_w z + 1) ≤ (j : ℚ) * (zone_card_w z + 1) :=
    mul_le_mul_of_nonneg_right hij1 (by linarith)
  simp only [compBox, COMP_GAP]
  nlinarith [key, hcw]

/-- C8: two distinct cards placed in the same zone band never overlap — the
placed bounding boxes are disjoint, and consecutive cards sit exactly one
strictly positive `COMP_GAP` apart. -/
theorem c8_no_overlap_within_group (contentW : ℚ) (z : Zone) (ztop : ℚ) (i j : ℕ)
    (hi : i < z.components.length) (hj : j < z.components.length) (hij : i ≠ j) :
    ¬ rectOverlap (compBox contentW z ztop i) (compBox contentW z ztop j) ∧
    (compBox contentW z ztop (i + 1)).x0 = (compBox contentW z ztop i).x1 + COMP_GAP ∧
    0 < COMP_GAP := by
  refine ⟨?_, ?_, by norm_num [COMP_GAP]⟩
  · intro hover
    rcases Nat.lt_or_ge i j with hlt | hge
    · exact absurd hover.2.1 (not_lt.mpr (compBox_sep contentW z ztop hlt))
    · have hlt : j < i := lt_of_le_of_ne hge (Ne.symm hij)
      exact absurd hover.1 (not_lt.mpr (compBox_sep contentW z ztop hlt))
  · simp only [compBox, COMP_GAP]
    push_cast
    ring

/-- C8 witness: the two cards of the concrete pair zone are disjoint and sit
one gap apart. -/
theorem c8_no_overlap_within_group_witness :
    ¬ rectOverlap (compBox 0 zonePair 0 0) (compBox 0 zonePair 0 1) ∧
    (compBox 0 zonePair 0 1).x0 = (compBox 0 zonePair 0 0).x1 + COMP_GAP ∧
    0 < COMP_GAP :=
  c8_no_overlap_within_group 0 zonePair 0 0 1 (by decide) (by decide) (by decide)

/-- Every zone band has strictly positive height. -/
theorem zone_band_h_pos (z : Zone) : 0 < zone_band_h z := by
  have := zone_card_h_nonneg z
  simp only [zone_band_h, ZONE_HEADER, ZONE_CARD_GAP, ZONE_PAD_Y]
  linarith

/-- Band heights sum to a nonnegative total. -/
theorem sum_band_nonneg (zs : List Zone) : 0 ≤ (zs.map zone_band_h).sum := by
  apply List.sum_nonneg
  intro x hx
  rcases List.mem_map.mp hx with ⟨z, _, rfl⟩
  exact le_of_lt (zone_band_h_pos z)

/-- A zone paired with a band top by the cursor walk is one of the zones. -/
theorem zoneTops_mem_zone :
    ∀ {zs : List Zone} {c t : ℚ} {z : Zone}, (z, t) ∈ zoneTops zs c → z ∈ zs := by
  intro zs
  induction zs with
  | nil => intro c t z h; cases h
  | cons z' rest ih =>
    intro c t z h
    rw [zoneTops] at h
    rcases List.mem_cons.mp h with h | h
    · rw [Prod.mk.injEq] at h
      obtain ⟨h1, _⟩ := h
      subst h1
      exact List.mem_cons_self z rest
    · exact List.mem_cons_of_mem z' (ih h)

/-- Band tops never exceed the starting cursor. -/
theorem zoneTops_le :
    ∀ {zs : List Zone} {c t : ℚ} {z : Zone}, (z, t) ∈ zoneTops zs c → t ≤ c := by
  intro zs
  induction zs with
  | nil => intro c t z h; cases h
  | cons z' rest ih =>
    intro c t z h
    rw [zoneTops] at h
    rcases List.mem_cons.mp h with h | h
    · rw [Prod.mk.injEq] at h
      obtain ⟨_, h2⟩ := h
      subst h2
      exact le_refl _
    · have hA : (0 : ℚ) < ARROW_ZONE := by norm_num [ARROW_ZONE]
      have := ih h
      have hb := zone_band_h_pos z'
      linarith

/-- Band bottoms stay above the cursor's final resting point: every band's
bottom edge is at least the starting cursor minus the total drop of all bands
and arrow gaps (plus the one arrow gap that is not consumed below the band). -/
theorem zoneTops_bot :
    ∀ {zs : List Zone} {c t : ℚ} {z : Zone}, (z, t) ∈ zoneTops zs c →
      c - ((zs.map zone_band_h).sum + (zs.length : ℚ) * ARROW_ZONE) + ARROW_ZONE
        ≤ t - zone_band_h z := by
  intro zs
  induction zs with
  | nil => intro c t z h; cases h
  | cons z' rest ih =>
    intro c t z h
    rw [zoneTops] at h
    rcases List.mem_cons.mp h with h | h
    · rw [Prod.mk.injEq] at h
      obtain ⟨h1, h2⟩ := h
      subst h1
      subst h2
      simp only [List.map_cons, List.sum_cons, List.length_cons]
      push_cast
      have hs := sum_band_nonneg rest
      have hA : (0 : ℚ) ≤ ARROW_ZONE := by norm_num [ARROW_ZONE]
      have hlenA : (0 : ℚ) ≤ (rest.length : ℚ) * ARROW_ZONE :=
        mul_nonneg (Nat.cast_nonneg _) hA
      linarith
    · have hih := ih h
      simp only [List.map_cons, List.sum_cons, List.length_cons]
      push_cast
      linarith

/-- Every zone's needed band width is bounded by the shared content width. -/
theorem le_ZONE_CONTENT_W (zs : List Zone) (z : Zone) (hz : z ∈ zs) :
    zoneNeededW z ≤ ZONE_CONTENT_W zs := by
  cases zs with
  | nil => cases hz
  | cons a l =>
    simp only [ZONE_CONTENT_W, List.map_cons]
    rcases List.mem_cons.mp hz with h | h
    · subst h
      exact le_foldl_max _ _
    · exact mem_le_foldl_max _ _ _ (List.mem_map_of_mem zoneNeededW h)

/-- C9 counterexample: the draw.io export emits the fixed page height 4000 for
every configuration — one zone and thirteen zones give the same page height
even though the placed content bottoms differ, and the thirteen-zone content
even runs past the page, so the emitted extent is neither content-derived nor
a bound of the placed geometry. -/
theorem c9_canvas_extent_counterexample :
    (dioPage zsOne).2 = 4000 ∧ (dioPage zsMany).2 = 4000 ∧
    dioCursorEnd zsMany > 4000 ∧ dioCursorEnd zsOne ≠ dioCursorEnd zsMany := by
  refine ⟨rfl, rfl, ?_, ?_⟩
  · norm_num [dioCursorEnd, zsMany, List.replicate_succ, DIO_ZONE_HEADER,
      DIO_CARD_H, DIO_ZONE_PAD, DIO_ARROW_GAP]
  · norm_num [dioCursorEnd, zsOne, zsMany, List.replicate_succ, DIO_ZONE_HEADER,
      DIO_CARD_H, DIO_ZONE_PAD, DIO_ARROW_GAP]

/-- C9 (amended): for the matplotlib architecture map the claim holds — every
placed card box lies inside the canvas `[0, FIG_W] × [0, FIG_H]`, whose width
is the widest band content plus the sidebar widths and gaps and whose height
is the sum of per-band heights, inter-band arrow gaps and the title/legend
margins, all derived from the measured card sizes; the draw.io export however
emits the hard-coded constant page height 4000 instead of a content bound. -/
theorem c9_canvas_extent_amended (zs : List Zone) (z : Zone) (ztop : ℚ) (i : ℕ)
    (hz : (z, ztop) ∈ archZoneTops zs) (hi : i < z.components.length) :
    rectInside (compBox (ZONE_CONTENT_W zs) z ztop i) (FIG_W zs) (FIG_H zs) ∧
    FIG_W zs = ZONE_CONTENT_W zs + 2 * SIDEBAR_W + 4 * GAP_X ∧
    FIG_H zs = TITLE_H + (zs.map zone_band_h).sum
      + ((zs.length : ℚ) - 1) * ARROW_ZONE + (12/10 + LEGEND_H + 1) ∧
    (dioPage zs).2 = 4000 := by
  rw [archZoneTops] at hz
  have hzin := zoneTops_mem_zone hz
  have hW := le_ZONE_CONTENT_W zs z hzin
  have htop := zoneTops_le hz
  have hbot := zoneTops_bot hz
  have hcw := zone_card_w_nonneg z
  have hch := zone_card_h_nonneg z
  have hi1 : (i : ℚ) + 1 ≤ (z.components.length : ℚ) := by exact_mod_cast hi
  have hi0 : (0 : ℚ) ≤ (i : ℚ) := Nat.cast_nonneg i
  have hp1 : (0 : ℚ) ≤ (i : ℚ) * (zone_card_w z + 1) :=
    mul_nonneg hi0 (by linarith)
  have hp2 : (i : ℚ) * (zone_card_w z + 1) ≤
      ((z.components.length : ℚ) - 1) * (zone_card_w z + 1) :=
    mul_le_mul_of_nonneg_right (by linarith) (by linarith)
  have hband : zone_band_h z = 2 + 55/100 + zone_card_h z + 6/10 := by
    simp only [zone_band_h, ZONE_HEADER, ZONE_CARD_GAP, ZONE_PAD_Y]
  have hHdef : FIG_H zs = 55/10 + (zs.map zone_band_h).sum
      + ((zs.length : ℚ) - 1) * (22/10) + 12/10 + 7 + 1 := by
    simp only [FIG_H, TITLE_H, LEGEND_H, ARROW_ZONE]
  simp only [TITLE_H] at htop
  simp only [TITLE_H, ARROW_ZONE] at hbot
  simp only [zoneNeededW, COMP_GAP, ZONE_PAD_X] at hW
  refine ⟨?_, by simp only [FIG_W]; ring, by simp only [FIG_H]; ring, rfl⟩
  simp only [rectInside, compBox, ZONE_LEFT, GAP_X, SIDEBAR_W, COMP_GAP, ZONE_HEADER,
    ZONE_CARD_GAP, FIG_W]
  refine ⟨?_, ?_, ?_, ?_⟩
  · linarith
  · linarith
  · linarith
  · linarith

/-- C9 witness: the single card of the one-zone configuration is placed inside
the computed canvas. -/
theorem c9_canvas_extent_amended_witness :
    rectInside (compBox (ZONE_CONTENT_W zsOne) zoneOne (FIG_H zsOne - TITLE_H) 0)
      (FIG_W zsOne) (FIG_H zsOne) :=
  (c9_canvas_extent_amended zsOne zoneOne (FIG_H zsOne - TITLE_H) 0
    (by simp [zsOne, archZoneTops, zoneTops]) (by decide)).1

/-- The enumerate loop of `find_column_y` reaches its fallback when no column
carries the requested name, whatever the running index. -/
theorem findColY_not_found (colName : String) (yTop : ℚ) :
    ∀ (cols : List Erd.Column) (i : ℕ), (∀ c ∈ cols, c.name ≠ colName) →
      findColY colName yTop i cols = yTop + Erd.HEADER_H + Erd.ROW_H / 2 := by
  intro cols
  induction cols with
  | nil => intro i _; rfl
  | cons c rest ih =>
    intro i h
    rw [findColY, if_neg (h c (List.mem_cons_self c rest))]
    exact ih (i + 1) (fun c' hc' => h c' (List.mem_cons_of_mem c hc'))

/-- C10: when both endpoint tables of a relationship resolve but the source
column name occurs nowhere in the source table's column list, `find_column_y`
returns the vertical centre of the table's first column row
(`y_top + HEADER_H + ROW_H / 2`), and `draw_relationship` still produces line
geometry anchored there instead of skipping the relationship or failing. -/
theorem c10_missing_column_fallback (tables : List Erd.Table)
    (positions : List (String × (ℚ × ℚ))) (rel : Erd.Rel)
    (ft tt : Erd.Table) (fpos tpos : ℚ × ℚ)
    (hft : tables.find? (fun t => t.id == rel.srcTable) = some ft)
    (htt : tables.find? (fun t => t.id == rel.dstTable) = some tt)
    (hfp : lookupPos positions rel.srcTable = some fpos)
    (htp : lookupPos positions rel.dstTable = some tpos)
    (hmiss : ∀ c ∈ ft.columns, c.name ≠ rel.srcCol) :
    find_column_y ft rel.srcCol fpos.2 = fpos.2 + Erd.HEADER_H + Erd.ROW_H / 2 ∧
    ∃ g : RelGeom, draw_relationship tables positions rel = .ok g ∧
      g.fy = fpos.2 + Erd.HEADER_H + Erd.ROW_H / 2 := by
  have hfy : find_column_y ft rel.srcCol fpos.2 = fpos.2 + Erd.HEADER_H + Erd.ROW_H / 2 :=
    findColY_not_found rel.srcCol fpos.2 ft.columns 0 hmiss
  refine ⟨hfy, ?_⟩
  simp only [draw_relationship, hft, htt, hfp, htp]
  split_ifs with h1 h2
  · exact ⟨_, rfl, hfy⟩
  · exact ⟨_, rfl, hfy⟩
  · exact ⟨_, rfl, hfy⟩

/-- C10 witness: the concrete relationship whose source column is missing from
its table is drawn, anchored at the first column row of that table. -/
theorem c10_missing_column_fallback_witness :
    ∃ g : RelGeom, draw_relationship [tableA, tableB] posAB relMissing = .ok g ∧
      g.fy = ((1, 2) : ℚ × ℚ).2 + Erd.HEADER_H + Erd.ROW_H / 2 :=
  (c10_missing_column_fallback [tableA, tableB] posAB relMissing tableA tableB
    (1, 2) (7, 2) rfl rfl rfl rfl (by decide)).2
